import Mathlib

/-!
Verification of the `ssorepeat` core: argument parser (`parse_arguments.py`),
filter pipeline (`filter.py`) and execution orchestrator (`executor.py`).

The Python source works on string-keyed dicts; we embed them as structures.
External collaborators are abstracted as function parameters:
* the regular-expression engine `re` is abstracted as
  `search : String → String → Bool` standing for
  `re.compile(pattern).search(text) is not None` (a search-anywhere match);
* the SSO collaborator (`SsoManager` protocol) is abstracted as functions
  `get_account_roles : String → List Role` and
  `get_credentials : String → String → Option Credentials` (`none` is the
  "forbidden" signal, per the `Optional` return of the protocol);
* `json.dump` and `run_subprocess` are abstracted as functions producing the
  text of one emitted item; the writes of the orchestrator itself (`[`, `,`, `]\n`)
  are modelled exactly, and the whole stream is the concatenation.
-/

namespace Ssorepeat

/-- An account record, as returned by `SsoSession.get_accounts`. -/
structure Account where
  accountId : String
  accountName : String
  emailAddress : Option String := none
  deriving DecidableEq, Repr

/-- A role record, as returned by `SsoSession.get_account_roles`. -/
structure Role where
  roleName : String
  accountId : String
  deriving DecidableEq, Repr

/-- An account/role association, as produced by `filter_accounts`. -/
structure Association where
  accountName : String
  accountId : String
  role : String
  deriving DecidableEq, Repr

/-- Temporary credentials, as returned by `SsoSession.get_credentials`. -/
structure Credentials where
  accessKeyId : String
  secretAccessKey : String
  sessionToken : String
  deriving DecidableEq, Repr

/-- Errors raised by `filter.py`. -/
inductive FilterError where
  | unexpectedFilterArgument (arg : String)
  | missingFilterParameter (arg : String)
  deriving DecidableEq, Repr

/-- Errors raised by `parse_arguments.py`. -/
inductive ParseError where
  | invalidArgument (arg : String) (pos : Nat)
  | missingArgumentParameter (arg : String)
  deriving DecidableEq, Repr

/-- The tuple returned by `parse_arguments`. -/
structure ParseResult where
  showHelp : Bool
  profile : Option String
  filters : List String
  commands : List String
  deriving DecidableEq, Repr

/-- Python `s.split(",")` on the underlying character list: split at every
comma, keeping empty pieces (so `"".split(",") = [""]`). -/
def splitCommaList : List Char → List (List Char)
  | [] => [[]]
  | c :: cs =>
    let r := splitCommaList cs
    if c = ',' then [] :: r
    else
      match r with
      | [] => [[c]]
      | piece :: more => (c :: piece) :: more

/-- Python `role_names.split(",")` for strings. -/
def splitComma (s : String) : List String :=
  (splitCommaList s.data).map String.mk

/-- Embedding of `filter.py` `_buf_include_only`: keep the accounts of `buf` whose
`accountName` matches `regex_str` (search-anywhere). -/
def bufIncludeOnly (search : String → String → Bool)
    (buf : List Account) (regex_str : String) : List Account :=
  buf.filter fun account => search regex_str account.accountName

/-- Embedding of `filter.py` `_buf_exclude`: keep the accounts of `buf` whose
`accountName` does NOT match `regex_str`. -/
def bufExclude (search : String → String → Bool)
    (buf : List Account) (regex_str : String) : List Account :=
  buf.filter fun account => !search regex_str account.accountName

/-- Embedding of `filter.py` `_result_associate`: for each account of `buf` (outer loop),
for each name in `role_names.split(",")` (inner loop), one association. -/
def resultAssociate : List Account → String → List Association
  | [], _ => []
  | account :: more, role_names =>
    (splitComma role_names).map (fun role_name =>
      { accountName := account.accountName
        accountId := account.accountId
        role := role_name })
    ++ resultAssociate more role_names

/-- The `while` loop of `filter_accounts`, with the loop state (`argv`,
`acc_buf`, `result`) made explicit.  Token dispatch order follows the source:
the three pair flags (whose `_has_parameter_or_throw` raises
`MissingFilterParameter` when the flag is the last token), then
`--assoc-default`, then `--reset`, then `UnexpectedFilterArgument`.
The `[]` case is the code after the loop: one final implicit
`_result_associate(acc_buf, default_role)`. -/
def filterGo (search : String → String → Bool) (accounts : List Account)
    (default_role : String) :
    List String → List Account → List Association →
    Except FilterError (List Association)
  | [], buf, result => .ok (result ++ resultAssociate buf default_role)
  | arg :: rest, buf, result =>
    if arg == "--include-only" then
      match rest with
      | [] => .error (.missingFilterParameter arg)
      | v :: rest2 =>
        filterGo search accounts default_role rest2
          (bufIncludeOnly search buf v) result
    else if arg == "--exclude" then
      match rest with
      | [] => .error (.missingFilterParameter arg)
      | v :: rest2 =>
        filterGo search accounts default_role rest2
          (bufExclude search buf v) result
    else if arg == "--assoc" then
      match rest with
      | [] => .error (.missingFilterParameter arg)
      | v :: rest2 =>
        filterGo search accounts default_role rest2 []
          (result ++ resultAssociate buf v)
    else if arg == "--assoc-default" then
      filterGo search accounts default_role rest []
        (result ++ resultAssociate buf default_role)
    else if arg == "--reset" then
      filterGo search accounts default_role rest accounts result
    else .error (.unexpectedFilterArgument arg)

/-- Embedding of `filter.py` `filter_accounts`: the buffer starts as the full account
list and the result empty. -/
def filter_accounts (search : String → String → Bool) (filters : List String)
    (accounts : List Account) (default_role : String) :
    Except FilterError (List Association) :=
  filterGo search accounts default_role filters accounts []

/-- Embedding of `parse_arguments.py` `_parse_help`: `show_help` is set as soon as
`"--help"` is found; it is then refined to `exec_pos == help_pos - 1` only
when a literal `"exec"` occurs in `argv[0:help_pos]` (Python
`argv.index("exec", 0, help_pos)`; the `ValueError` of a failed search
leaves `show_help` at `True`). -/
def parseHelp (argv : List String) : Bool :=
  let helpPos := argv.indexOf "--help"
  if helpPos < argv.length then
    let front := argv.take helpPos
    let execPos := front.indexOf "exec"
    if execPos < front.length then execPos == helpPos - 1 else true
  else false

/-- Embedding of `parse_arguments.py` `_parse_profile`: an optional leading
`--profile VALUE` pair; the bare flag as the whole input raises
`MissingArgumentParameter` (via `_has_parameter_or_throw`). -/
def parseProfile : List String → Except ParseError (Nat × Option String)
  | [] => .ok (0, none)
  | arg :: rest =>
    if arg == "--profile" then
      match rest with
      | [] => .error (.missingArgumentParameter arg)
      | v :: _ => .ok (2, some v)
    else .ok (0, none)

/-- Embedding of `parse_arguments.py` `_parse_filters`: consume recognized filter tokens
from the front (pair flags take the very next token as value; a trailing
bare pair flag raises `MissingArgumentParameter`), stopping at the first
unrecognized token.  Returns the consumed count and the consumed tokens. -/
def parseFilters : List String → Except ParseError (Nat × List String)
  | [] => .ok (0, [])
  | arg :: rest =>
    if arg == "--include-only" then
      match rest with
      | [] => .error (.missingArgumentParameter arg)
      | v :: rest2 =>
        match parseFilters rest2 with
        | .error e => .error e
        | .ok (c, fs) => .ok (c + 2, arg :: v :: fs)
    else if arg == "--exclude" then
      match rest with
      | [] => .error (.missingArgumentParameter arg)
      | v :: rest2 =>
        match parseFilters rest2 with
        | .error e => .error e
        | .ok (c, fs) => .ok (c + 2, arg :: v :: fs)
    else if arg == "--assoc" then
      match rest with
      | [] => .error (.missingArgumentParameter arg)
      | v :: rest2 =>
        match parseFilters rest2 with
        | .error e => .error e
        | .ok (c, fs) => .ok (c + 2, arg :: v :: fs)
    else if arg == "--assoc-default" then
      match parseFilters rest with
      | .error e => .error e
      | .ok (c, fs) => .ok (c + 1, arg :: fs)
    else if arg == "--reset" then
      match parseFilters rest with
      | .error e => .error e
      | .ok (c, fs) => .ok (c + 1, arg :: fs)
    else .ok (0, [])

/-- Embedding of `parse_arguments.py` `_parse_commands`: `exec` consumes everything,
`list`/`creds` consume one token, anything else consumes nothing. -/
def parseCommands : List String → Nat × List String
  | [] => (0, [])
  | arg :: rest =>
    if arg == "exec" then (rest.length + 1, arg :: rest)
    else if arg == "list" then (1, [arg])
    else if arg == "creds" then (1, [arg])
    else (0, [])

/-- Embedding of `parse_arguments.py` `parse_arguments`: drop the program name, short
circuit on the help rule, then consume the profile, filter and command
segments in order; any leftover token is `InvalidArgument(token, consumed+1)`. -/
def parse_arguments (argv : List String) : Except ParseError ParseResult :=
  let s := argv.drop 1
  if parseHelp s then .ok ⟨true, none, [], []⟩
  else
    match parseProfile s with
    | .error e => .error e
    | .ok (c1, profile) =>
      match parseFilters (s.drop c1) with
      | .error e => .error e
      | .ok (c2, filters) =>
        match parseCommands ((s.drop c1).drop c2) with
        | (c3, commands) =>
          match ((s.drop c1).drop c2).drop c3 with
          | [] => .ok ⟨false, profile, filters, commands⟩
          | tok :: _ => .error (.invalidArgument tok (c1 + c2 + c3 + 1))

/-- The loop of `Executor.list_associations`, carrying the `first` flag.
An association whose role is not among the role names of its account is skipped
(`continue`); an emitted one is preceded by `","` unless it is the first
emitted; the `[]` case is the final `sys.stdout.write("]\n")`. -/
def listGo (get_account_roles : String → List Role)
    (dump : Association → String) :
    List Association → Bool → String
  | [], _ => "]\n"
  | assoc :: rest, first =>
    if ((get_account_roles assoc.accountId).map Role.roleName).contains
        assoc.role then
      (if first then "" else ",") ++
        (dump assoc ++ listGo get_account_roles dump rest false)
    else listGo get_account_roles dump rest first

/-- Embedding of `executor.py` `Executor.list_associations`: write `[`, loop, write `]\n`. -/
def list_associations (get_account_roles : String → List Role)
    (dump : Association → String) (associations : List Association) : String :=
  "[" ++ listGo get_account_roles dump associations true

/-- The loop of `Executor.fetch_credentials`: an association whose
credential request returns `None` (the forbidden signal) is skipped. -/
def credsGo (get_credentials : String → String → Option Credentials)
    (dumpCreds : Association → Credentials → String) :
    List Association → Bool → String
  | [], _ => "]\n"
  | assoc :: rest, first =>
    match get_credentials assoc.accountId assoc.role with
    | none => credsGo get_credentials dumpCreds rest first
    | some credentials =>
      (if first then "" else ",") ++
        (dumpCreds assoc credentials ++
          credsGo get_credentials dumpCreds rest false)

/-- Embedding of `executor.py` `Executor.fetch_credentials`: write `[`, loop, write `]\n`. -/
def fetch_credentials (get_credentials : String → String → Option Credentials)
    (dumpCreds : Association → Credentials → String)
    (associations : List Association) : String :=
  "[" ++ credsGo get_credentials dumpCreds associations true

/-- The loop of `Executor.run_sequence`: same skip policy as
`fetch_credentials`; `runItem` stands for the output `run_subprocess`
writes for one association. -/
def runGo (get_credentials : String → String → Option Credentials)
    (runItem : Association → Credentials → String) :
    List Association → Bool → String
  | [], _ => "]\n"
  | assoc :: rest, first =>
    match get_credentials assoc.accountId assoc.role with
    | none => runGo get_credentials runItem rest first
    | some credentials =>
      (if first then "" else ",") ++
        (runItem assoc credentials ++ runGo get_credentials runItem rest false)

/-- Embedding of `executor.py` `Executor.run_sequence`: write `[`, loop, write `]\n`. -/
def run_sequence (get_credentials : String → String → Option Credentials)
    (runItem : Association → Credentials → String)
    (associations : List Association) : String :=
  "[" ++ runGo get_credentials runItem associations true

/-- Splitting a comma-free character list is the identity (one piece). -/
theorem splitCommaList_eq_self {cs : List Char} (h : ',' ∉ cs) :
    splitCommaList cs = [cs] := by
  induction cs with
  | nil => rfl
  | cons c cs ih =>
    have hc : ¬(c = ',') := fun hc => h (hc ▸ List.mem_cons_self c cs)
    have hcs : ',' ∉ cs := fun hm => h (List.mem_cons_of_mem _ hm)
    simp [splitCommaList, hc, ih hcs]

/-- Splitting a comma-free string is the identity (one piece). -/
theorem splitComma_eq_self (s : String) (h : ',' ∉ s.data) :
    splitComma s = [s] := by
  cases s with
  | mk data =>
    unfold splitComma
    rw [splitCommaList_eq_self h]
    rfl

/-- With a comma-free role name, `_result_associate` yields exactly one
association per account, in buffer order. -/
theorem resultAssociate_single {R : String} (h : ',' ∉ R.data) :
    ∀ accounts : List Account,
      resultAssociate accounts R =
        accounts.map fun a => ⟨a.accountName, a.accountId, R⟩
  | [] => rfl
  | a :: more => by
    simp [resultAssociate, splitComma_eq_self R h, resultAssociate_single h more]

/-- Lemma: `_result_associate` is the account-major double loop: accounts of the
buffer outer, comma-separated role names inner. -/
theorem resultAssociate_eq_flatMap (buf : List Account) (v : String) :
    resultAssociate buf v =
      buf.flatMap fun a =>
        (splitComma v).map fun r => ⟨a.accountName, a.accountId, r⟩ := by
  induction buf with
  | nil => rfl
  | cons a more ih => simp [resultAssociate, ih]

/-- Claim C1 (amended): for every account list and every default role name
`R` that contains no comma, the filter pipeline on an empty filter-token
list returns exactly one Association per account, each with role `R`, in
input order — the implicit trailing AssocDefault step fires with zero
filter tokens.  (When `R` contains a comma the implicit step splits it,
see the counterexample.) -/
theorem claim_C1 (search : String → String → Bool) (accounts : List Account)
    (R : String) (h : ',' ∉ R.data) :
    filter_accounts search [] accounts R =
      .ok (accounts.map fun a => ⟨a.accountName, a.accountId, R⟩) := by
  unfold filter_accounts filterGo
  rw [resultAssociate_single h]
  simp

/-- Claim C1, witness: a concrete run of the amended statement. -/
theorem claim_C1_witness :
    ',' ∉ "AdminRole".data ∧
      filter_accounts (fun _ _ => true) [] [⟨"123", "Acct", none⟩]
        "AdminRole" = .ok [⟨"Acct", "123", "AdminRole"⟩] :=
  ⟨by decide, claim_C1 (fun _ _ => true) [⟨"123", "Acct", none⟩] "AdminRole"
    (by decide)⟩

/-- Claim C1, counterexample to the unrestricted statement: with default
role name `"A,B"` the implicit AssocDefault splits on the comma and yields
two associations per account (roles `"A"` and `"B"`), not one association
with role `"A,B"`. -/
theorem claim_C1_counterexample :
    filter_accounts (fun _ _ => true) [] [⟨"123", "Acct", none⟩] "A,B" =
        .ok [⟨"Acct", "123", "A"⟩, ⟨"Acct", "123", "B"⟩] ∧
      ([⟨"Acct", "123", "A"⟩, ⟨"Acct", "123", "B"⟩] : List Association) ≠
        [⟨"Acct", "123", "A,B"⟩] :=
  ⟨rfl, by decide⟩

/-- Claim C2: an `--assoc` step whose value `v` lists roles appends, for
each account of the buffer (outer loop, buffer order), one association per
comma-separated role of `v` (inner loop, listed order); a two-account
buffer with value `"A,B"` yields the four associations in the stated
order; and after an `--assoc` or `--assoc-default` step the interpreter
continues with an empty buffer. -/
theorem claim_C2 (search : String → String → Bool) (accounts : List Account)
    (R v : String) (rest : List String) (buf : List Account)
    (res : List Association) (a1 a2 : Account) :
    resultAssociate buf v =
        (buf.flatMap fun a =>
          (splitComma v).map fun r => ⟨a.accountName, a.accountId, r⟩) ∧
      resultAssociate [a1, a2] "A,B" =
        [⟨a1.accountName, a1.accountId, "A"⟩,
         ⟨a1.accountName, a1.accountId, "B"⟩,
         ⟨a2.accountName, a2.accountId, "A"⟩,
         ⟨a2.accountName, a2.accountId, "B"⟩] ∧
      filterGo search accounts R ("--assoc" :: v :: rest) buf res =
        filterGo search accounts R rest [] (res ++ resultAssociate buf v) ∧
      filterGo search accounts R ("--assoc-default" :: rest) buf res =
        filterGo search accounts R rest [] (res ++ resultAssociate buf R) := by
  refine ⟨resultAssociate_eq_flatMap buf v, ?_, rfl, ?_⟩
  · have hsplit : splitComma "A,B" = ["A", "B"] := rfl
    simp [resultAssociate, hsplit]
  · cases rest with
    | nil => rfl
    | cons t ts => rfl

/-- The first index of `a` in `l.take n` is the first index in `l`, capped
at `n` (both sides fall back to the length of the truncated list when `a`
does not occur in it). -/
theorem indexOf_take {α : Type} [DecidableEq α] (a : α) :
    ∀ (l : List α) (n : Nat), (l.take n).indexOf a = min n (l.indexOf a)
  | [], n => by simp
  | b :: bs, 0 => by simp
  | b :: bs, n + 1 => by
    by_cases h : b = a
    · subst h
      simp [List.take_succ_cons]
    · rw [List.take_succ_cons, List.indexOf_cons_ne _ h,
        List.indexOf_cons_ne _ h, indexOf_take a bs n]
      omega

/-- The help condition of the claim: a `--help` token is present, and it sits
strictly before the first `exec` token (in particular when no `exec`
exists, since then `indexOf` returns the length) or immediately after it. -/
def helpRequested (argv : List String) : Prop :=
  "--help" ∈ argv ∧
    (argv.indexOf "--help" < argv.indexOf "exec" ∨
      argv.indexOf "--help" = argv.indexOf "exec" + 1)

instance (argv : List String) : Decidable (helpRequested argv) := by
  unfold helpRequested
  infer_instance

/-- Lemma: `_parse_help` computes exactly the help condition of the claim. -/
theorem parseHelp_iff (l : List String) :
    parseHelp l = true ↔ helpRequested l := by
  unfold parseHelp helpRequested
  by_cases hmem : "--help" ∈ l
  · have hlt : l.indexOf "--help" < l.length := List.indexOf_lt_length.mpr hmem
    have hne : l.indexOf "--help" ≠ l.indexOf "exec" := by
      intro h
      have he : l.indexOf "exec" < l.length := by omega
      have h1 := List.indexOf_get? hmem
      have h2 := List.indexOf_get? (List.indexOf_lt_length.mp he)
      rw [h] at h1
      exact absurd (h2.symm.trans h1) (by decide)
    simp only [if_pos hlt, indexOf_take, List.length_take]
    have hminlen : min (l.indexOf "--help") l.length = l.indexOf "--help" := by
      omega
    by_cases hcase :
        min (l.indexOf "--help") (l.indexOf "exec") <
          l.indexOf "--help" ⊓ l.length
    · rw [if_pos hcase]
      have he : l.indexOf "exec" < l.indexOf "--help" := by
        have : l.indexOf "--help" ⊓ l.length = l.indexOf "--help" := hminlen
        omega
      have hmine :
          min (l.indexOf "--help") (l.indexOf "exec") = l.indexOf "exec" := by
        omega
      rw [hmine]
      simp only [beq_iff_eq]
      constructor
      · intro h
        exact ⟨hmem, Or.inr (by omega)⟩
      · rintro ⟨-, h | h⟩
        · omega
        · omega
    · rw [if_neg hcase]
      have he : l.indexOf "--help" < l.indexOf "exec" := by
        have : l.indexOf "--help" ⊓ l.length = l.indexOf "--help" := hminlen
        omega
      simp only [true_iff]
      exact ⟨hmem, Or.inl he⟩
  · have hnlt : ¬(l.indexOf "--help" < l.length) := fun h =>
      hmem (List.indexOf_lt_length.mp h)
    rw [if_neg hnlt]
    simp [hmem]

/-- A successful parse reports `showHelp = true` (with no profile, filter
or command tokens) exactly when `_parse_help` fires on the stripped argv. -/
theorem parse_ok_help (argv : List String) :
    parse_arguments argv = .ok ⟨true, none, [], []⟩ ↔
      parseHelp (argv.drop 1) = true := by
  constructor
  · intro hc
    by_cases h : parseHelp (argv.drop 1) = true
    · exact h
    · exfalso
      simp only [parse_arguments, if_neg h] at hc
      split at hc
      · exact absurd hc (by simp)
      · split at hc
        · exact absurd hc (by simp)
        · split at hc
          · simp at hc
          · exact absurd hc (by simp)
  · intro h
    simp only [parse_arguments, if_pos h]

/-- Claim C4: `parse_arguments` returns `showHelp = true` — immediately,
with no profile, filter or command tokens — exactly when `--help` appears
strictly before the (first) literal `exec` token, or immediately after it;
a help flag anywhere else is not special: `["prog","exec","x","--help"]`
parses with `showHelp = false` and the command tokens
`["exec","x","--help"]`. -/
theorem claim_C4 (argv : List String) :
    (parse_arguments argv = .ok ⟨true, none, [], []⟩ ↔
      helpRequested (argv.drop 1)) ∧
    parse_arguments ["prog", "exec", "x", "--help"] =
      .ok ⟨false, none, [], ["exec", "x", "--help"]⟩ :=
  ⟨(parse_ok_help argv).trans (parseHelp_iff (argv.drop 1)), rfl⟩

/-- Claim C4, witness: concrete instances of both sides of the
equivalence. -/
theorem claim_C4_witness :
    parse_arguments ["prog", "--help"] = .ok ⟨true, none, [], []⟩ ∧
    parse_arguments ["prog", "exec", "--help", "x"] =
      .ok ⟨true, none, [], []⟩ :=
  ⟨(claim_C4 ["prog", "--help"]).1.mpr (by decide),
   (claim_C4 ["prog", "exec", "--help", "x"]).1.mpr (by decide)⟩

/-- Appending a head preserves a known last element. -/
theorem getLast?_cons_of_getLast? {α : Type} {l : List α} {a x : α}
    (h : l.getLast? = some x) : (a :: l).getLast? = some x := by
  rw [List.getLast?_cons, h]
  rfl

/-- Lemma: `_parse_profile` can only fail with `MissingArgumentParameter` on
`--profile`, and only when the bare flag is the whole (hence last) input. -/
theorem parseProfile_error : ∀ (l : List String) (e : ParseError),
    parseProfile l = .error e →
    e = .missingArgumentParameter "--profile" ∧ l.getLast? = some "--profile"
  | [], e, h => by simp [parseProfile] at h
  | [arg], e, h => by
    simp only [parseProfile] at h
    split at h
    · rename_i harg
      have harg2 : arg = "--profile" := by simpa using harg
      injection h with h2
      subst harg2
      exact ⟨h2.symm, by simp⟩
    · simp at h
  | arg :: v :: rest, e, h => by
    simp only [parseProfile] at h
    split at h <;> simp at h

/-- Lemma: `_parse_filters` can only fail with `MissingArgumentParameter` on one
of the three pair flags, and only when that flag is the last input token. -/
theorem parseFilters_error : ∀ (l : List String) (e : ParseError),
    parseFilters l = .error e →
    ∃ f, e = .missingArgumentParameter f ∧ l.getLast? = some f ∧
      (f = "--include-only" ∨ f = "--exclude" ∨ f = "--assoc")
  | [], e, h => by simp [parseFilters] at h
  | [arg], e, h => by
    simp only [parseFilters] at h
    split at h
    · rename_i harg
      injection h with h2
      exact ⟨arg, h2.symm, by simp, Or.inl (by simpa using harg)⟩
    · split at h
      · rename_i harg
        injection h with h2
        exact ⟨arg, h2.symm, by simp, Or.inr (Or.inl (by simpa using harg))⟩
      · split at h
        · rename_i harg
          injection h with h2
          exact ⟨arg, h2.symm, by simp, Or.inr (Or.inr (by simpa using harg))⟩
        · split at h
          · simp at h
          · split at h <;> simp at h
  | arg :: v :: rest, e, h => by
    simp only [parseFilters] at h
    split at h
    · split at h
      · rename_i e2 heq
        injection h with h2
        obtain ⟨f, hf, hlast, hflag⟩ := parseFilters_error rest e2 heq
        exact ⟨f, h2 ▸ hf,
          getLast?_cons_of_getLast? (getLast?_cons_of_getLast? hlast), hflag⟩
      · simp at h
    · split at h
      · split at h
        · rename_i e2 heq
          injection h with h2
          obtain ⟨f, hf, hlast, hflag⟩ := parseFilters_error rest e2 heq
          exact ⟨f, h2 ▸ hf,
            getLast?_cons_of_getLast? (getLast?_cons_of_getLast? hlast), hflag⟩
        · simp at h
      · split at h
        · split at h
          · rename_i e2 heq
            injection h with h2
            obtain ⟨f, hf, hlast, hflag⟩ := parseFilters_error rest e2 heq
            exact ⟨f, h2 ▸ hf,
              getLast?_cons_of_getLast? (getLast?_cons_of_getLast? hlast),
              hflag⟩
          · simp at h
        · split at h
          · split at h
            · rename_i e2 heq
              obtain ⟨f, hf, hlast, hflag⟩ :=
                parseFilters_error (v :: rest) e2 heq
              injection h with h2
              exact ⟨f, h2 ▸ hf, getLast?_cons_of_getLast? hlast, hflag⟩
            · simp at h
          · split at h
            · split at h
              · rename_i e2 heq
                obtain ⟨f, hf, hlast, hflag⟩ :=
                  parseFilters_error (v :: rest) e2 heq
                injection h with h2
                exact ⟨f, h2 ▸ hf, getLast?_cons_of_getLast? hlast, hflag⟩
              · simp at h
            · simp at h

/-- Claim C5: when help does not fire and a token is left over after the
profile, filter and command segments have been consumed,
`parse_arguments` fails with `InvalidArgument` carrying the first leftover
token (the token sitting at 0-based stripped index `c1 + c2 + c3`, right
after the consumed prefix) and its 1-based position `c1 + c2 + c3 + 1`
over the program-name-stripped token sequence; conversely every reported
`InvalidArgument(tok, pos)` has the stripped sequence holding `tok` at
index `pos - 1`; `["prog","unknown"]` fails with
`InvalidArgument("unknown", 1)`. -/
theorem claim_C5 :
    (∀ (argv : List String) (c1 : Nat) (profile : Option String)
        (c2 : Nat) (fs : List String) (tok : String) (rest : List String),
      parseHelp (argv.drop 1) = false →
      parseProfile (argv.drop 1) = .ok (c1, profile) →
      parseFilters ((argv.drop 1).drop c1) = .ok (c2, fs) →
      (((argv.drop 1).drop c1).drop c2).drop
          (parseCommands (((argv.drop 1).drop c1).drop c2)).1 =
        tok :: rest →
      parse_arguments argv =
          .error (.invalidArgument tok (c1 + c2 +
            (parseCommands (((argv.drop 1).drop c1).drop c2)).1 + 1)) ∧
        (argv.drop 1)[c1 + c2 +
            (parseCommands (((argv.drop 1).drop c1).drop c2)).1]? =
          some tok) ∧
    (∀ (argv : List String) (tok : String) (pos : Nat),
      parse_arguments argv = .error (.invalidArgument tok pos) →
        1 ≤ pos ∧ (argv.drop 1)[pos - 1]? = some tok) ∧
    parse_arguments ["prog", "unknown"] =
      .error (.invalidArgument "unknown" 1) := by
  refine ⟨?_, ?_, rfl⟩
  · intro argv c1 profile c2 fs tok rest hh hpp hpf hdd
    have h : ¬(parseHelp (argv.drop 1) = true) := by
      intro hcontra
      rw [hh] at hcontra
      simp at hcontra
    constructor
    · simp only [parse_arguments, if_neg h, hpp, hpf, hdd]
    · have h0 : ((((argv.drop 1).drop c1).drop c2).drop
          (parseCommands (((argv.drop 1).drop c1).drop c2)).1)[0]? =
          some tok := by
        rw [hdd]
        simp
      rw [List.getElem?_drop, List.getElem?_drop, List.getElem?_drop] at h0
      have hidx : c1 + c2 +
          (parseCommands (((argv.drop 1).drop c1).drop c2)).1 =
          c1 + (c2 + ((parseCommands
            (((argv.drop 1).drop c1).drop c2)).1 + 0)) := by
        omega
      rw [hidx]
      exact h0
  · intro argv tok pos hc
    by_cases h : parseHelp (argv.drop 1) = true
    · rw [(parse_ok_help argv).mpr h] at hc
      exact absurd hc (by simp)
    · rcases hpp : parseProfile (argv.drop 1) with e | ⟨c1, profile⟩
      · simp only [parse_arguments, if_neg h, hpp] at hc
        obtain ⟨he, -⟩ := parseProfile_error _ _ hpp
        injection hc with h2
        rw [h2] at he
        simp at he
      · rcases hpf : parseFilters ((argv.drop 1).drop c1) with e | ⟨c2, fs⟩
        · simp only [parse_arguments, if_neg h, hpp, hpf] at hc
          obtain ⟨f, he, -, -⟩ := parseFilters_error _ _ hpf
          injection hc with h2
          rw [h2] at he
          simp at he
        · rcases hdd : (((argv.drop 1).drop c1).drop c2).drop
              (parseCommands (((argv.drop 1).drop c1).drop c2)).1 with
            _ | ⟨tok2, rest2⟩
          · simp only [parse_arguments, if_neg h, hpp, hpf, hdd] at hc
            exact absurd hc (by simp)
          · simp only [parse_arguments, if_neg h, hpp, hpf, hdd] at hc
            injection hc with h2
            injection h2 with htok hpos
            subst htok
            refine ⟨by omega, ?_⟩
            have h0 : ((((argv.drop 1).drop c1).drop c2).drop
                (parseCommands (((argv.drop 1).drop c1).drop c2)).1)[0]? =
                some tok2 := by
              rw [hdd]
              simp
            rw [List.getElem?_drop, List.getElem?_drop, List.getElem?_drop]
              at h0
            have hidx : pos - 1 =
                c1 + (c2 + ((parseCommands
                  (((argv.drop 1).drop c1).drop c2)).1 + 0)) := by
              omega
            rw [hidx]
            exact h0

/-- Claim C3: `--include-only P1` followed by `--exclude P2` retains, from
the starting buffer in order, exactly the accounts whose `accountName`
matches `P1` and does not match `P2` (matching being the abstracted
search-anywhere `re.search`). -/
theorem claim_C3 (search : String → String → Bool) (buf : List Account)
    (p1 p2 : String) :
    bufExclude search (bufIncludeOnly search buf p1) p2 =
      buf.filter fun a =>
        search p1 a.accountName && !search p2 a.accountName := by
  unfold bufExclude bufIncludeOnly
  rw [List.filter_filter]
  congr 1
  funext a
  exact Bool.and_comm _ _

/-- The tail of a comma-separated join: every element preceded by `","`. -/
def preComma : List String → String
  | [] => ""
  | x :: xs => "," ++ (x ++ preComma xs)

/-- Comma-separated join: a separator before every element except the
first. -/
def commaJoin : List String → String
  | [] => ""
  | x :: xs => x ++ preComma xs

/-- The items `list_associations` emits: the dumps of the associations
whose role occurs in their account role list, in order. -/
def listItems (get_account_roles : String → List Role)
    (dump : Association → String) (assocs : List Association) : List String :=
  (assocs.filter fun a =>
    ((get_account_roles a.accountId).map Role.roleName).contains a.role).map
    dump

/-- The items `fetch_credentials` emits: one per association whose
credential request is not forbidden, in order. -/
def credItems (get_credentials : String → String → Option Credentials)
    (dumpCreds : Association → Credentials → String)
    (assocs : List Association) : List String :=
  assocs.filterMap fun a =>
    (get_credentials a.accountId a.role).map fun c => dumpCreds a c

/-- The items `run_sequence` emits: one per association whose credential
request is not forbidden, in order. -/
def runItems (get_credentials : String → String → Option Credentials)
    (runItem : Association → Credentials → String)
    (assocs : List Association) : List String :=
  assocs.filterMap fun a =>
    (get_credentials a.accountId a.role).map fun c => runItem a c

/-- One step of the kept/skipped item list for `list_associations`. -/
theorem listItems_cons (roles : String → List Role)
    (dump : Association → String) (a : Association)
    (rest : List Association) :
    listItems roles dump (a :: rest) =
      if ((roles a.accountId).map Role.roleName).contains a.role then
        dump a :: listItems roles dump rest
      else listItems roles dump rest := by
  unfold listItems
  rw [List.filter_cons]
  split_ifs <;> simp

/-- A skipped (forbidden) association contributes no item. -/
theorem credItems_cons_none (getCred : String → String → Option Credentials)
    (dumpCreds : Association → Credentials → String) (a : Association)
    (rest : List Association) (hg : getCred a.accountId a.role = none) :
    credItems getCred dumpCreds (a :: rest) =
      credItems getCred dumpCreds rest := by
  unfold credItems
  rw [List.filterMap_cons]
  simp [hg]

/-- A non-forbidden association contributes exactly one item. -/
theorem credItems_cons_some (getCred : String → String → Option Credentials)
    (dumpCreds : Association → Credentials → String) (a : Association)
    (rest : List Association) (c : Credentials)
    (hg : getCred a.accountId a.role = some c) :
    credItems getCred dumpCreds (a :: rest) =
      dumpCreds a c :: credItems getCred dumpCreds rest := by
  unfold credItems
  rw [List.filterMap_cons]
  simp [hg]

/-- A skipped (forbidden) association contributes no item. -/
theorem runItems_cons_none (getCred : String → String → Option Credentials)
    (runItem : Association → Credentials → String) (a : Association)
    (rest : List Association) (hg : getCred a.accountId a.role = none) :
    runItems getCred runItem (a :: rest) = runItems getCred runItem rest := by
  unfold runItems
  rw [List.filterMap_cons]
  simp [hg]

/-- A non-forbidden association contributes exactly one item. -/
theorem runItems_cons_some (getCred : String → String → Option Credentials)
    (runItem : Association → Credentials → String) (a : Association)
    (rest : List Association) (c : Credentials)
    (hg : getCred a.accountId a.role = some c) :
    runItems getCred runItem (a :: rest) =
      runItem a c :: runItems getCred runItem rest := by
  unfold runItems
  rw [List.filterMap_cons]
  simp [hg]

/-- The `list_associations` loop produces the comma-joined emitted items
followed by the closing bracket; with the `first` flag already cleared,
every item gets a leading separator. -/
theorem listGo_spec (roles : String → List Role)
    (dump : Association → String) :
    ∀ assocs : List Association,
      listGo roles dump assocs true =
          commaJoin (listItems roles dump assocs) ++ "]\n" ∧
        listGo roles dump assocs false =
          preComma (listItems roles dump assocs) ++ "]\n"
  | [] => ⟨rfl, rfl⟩
  | a :: rest => by
    obtain ⟨ht, hf⟩ := listGo_spec roles dump rest
    by_cases hk :
        (((roles a.accountId).map Role.roleName).contains a.role) = true
    · constructor
      · rw [listGo, if_pos hk, hf, listItems_cons, if_pos hk, commaJoin]
        simp [String.append_assoc]
      · rw [listGo, if_pos hk, hf, listItems_cons, if_pos hk, preComma]
        simp [String.append_assoc]
    · constructor
      · rw [listGo, if_neg hk, listItems_cons, if_neg hk]
        exact ht
      · rw [listGo, if_neg hk, listItems_cons, if_neg hk]
        exact hf

/-- The `fetch_credentials` loop produces the comma-joined emitted items
followed by the closing bracket. -/
theorem credsGo_spec (getCred : String → String → Option Credentials)
    (dumpCreds : Association → Credentials → String) :
    ∀ assocs : List Association,
      credsGo getCred dumpCreds assocs true =
          commaJoin (credItems getCred dumpCreds assocs) ++ "]\n" ∧
        credsGo getCred dumpCreds assocs false =
          preComma (credItems getCred dumpCreds assocs) ++ "]\n"
  | [] => ⟨rfl, rfl⟩
  | a :: rest => by
    obtain ⟨ht, hf⟩ := credsGo_spec getCred dumpCreds rest
    rcases hg : getCred a.accountId a.role with _ | c
    · constructor
      · rw [credsGo, hg, credItems_cons_none getCred dumpCreds a rest hg]
        exact ht
      · rw [credsGo, hg, credItems_cons_none getCred dumpCreds a rest hg]
        exact hf
    · constructor
      · rw [credsGo, hg, hf,
          credItems_cons_some getCred dumpCreds a rest c hg, commaJoin]
        simp [String.append_assoc]
      · rw [credsGo, hg, hf,
          credItems_cons_some getCred dumpCreds a rest c hg, preComma]
        simp [String.append_assoc]

/-- The `run_sequence` loop produces the comma-joined emitted items
followed by the closing bracket. -/
theorem runGo_spec (getCred : String → String → Option Credentials)
    (runItem : Association → Credentials → String) :
    ∀ assocs : List Association,
      runGo getCred runItem assocs true =
          commaJoin (runItems getCred runItem assocs) ++ "]\n" ∧
        runGo getCred runItem assocs false =
          preComma (runItems getCred runItem assocs) ++ "]\n"
  | [] => ⟨rfl, rfl⟩
  | a :: rest => by
    obtain ⟨ht, hf⟩ := runGo_spec getCred runItem rest
    rcases hg : getCred a.accountId a.role with _ | c
    · constructor
      · rw [runGo, hg, runItems_cons_none getCred runItem a rest hg]
        exact ht
      · rw [runGo, hg, runItems_cons_none getCred runItem a rest hg]
        exact hf
    · constructor
      · rw [runGo, hg, hf, runItems_cons_some getCred runItem a rest c hg,
          commaJoin]
        simp [String.append_assoc]
      · rw [runGo, hg, hf, runItems_cons_some getCred runItem a rest c hg,
          preComma]
        simp [String.append_assoc]

/-- Claim C5, witness: on `["prog","unknown"]` all three segments consume
nothing, the leftover `"unknown"` forces the failure with position 1, and
the reported position points back at the token. -/
theorem claim_C5_witness :
    (parse_arguments ["prog", "unknown"] =
        .error (.invalidArgument "unknown" (0 + 0 +
          (parseCommands (((["prog", "unknown"].drop 1).drop 0).drop 0)).1
            + 1)) ∧
      (["prog", "unknown"].drop 1)[0 + 0 +
          (parseCommands
            (((["prog", "unknown"].drop 1).drop 0).drop 0)).1]? =
        some "unknown") ∧
      (1 ≤ 1 ∧ (["prog", "unknown"].drop 1)[1 - 1]? = some "unknown") :=
  ⟨claim_C5.1 ["prog", "unknown"] 0 none 0 [] "unknown" [] (by rfl) (by rfl)
      (by rfl) (by rfl),
   claim_C5.2.1 ["prog", "unknown"] "unknown" 1 (by rfl)⟩

/-- Claim C6: in all three modes, the stream is the opening `[`, the
emitted items joined with a single `,` before every item except the first
actually-emitted one (skipped associations contribute nothing), and the
closing bracket-newline written once — so zero emitted items give the
literal output of `[` immediately followed by the closing bracket and
newline. -/
theorem claim_C6 (roles : String → List Role) (dump : Association → String)
    (getCred : String → String → Option Credentials)
    (dumpCreds : Association → Credentials → String)
    (runItem : Association → Credentials → String)
    (assocs : List Association) :
    list_associations roles dump assocs =
        "[" ++ commaJoin (listItems roles dump assocs) ++ "]\n" ∧
      fetch_credentials getCred dumpCreds assocs =
        "[" ++ commaJoin (credItems getCred dumpCreds assocs) ++ "]\n" ∧
      run_sequence getCred runItem assocs =
        "[" ++ commaJoin (runItems getCred runItem assocs) ++ "]\n" ∧
      (listItems roles dump assocs = [] →
        list_associations roles dump assocs = "[]\n") ∧
      (credItems getCred dumpCreds assocs = [] →
        fetch_credentials getCred dumpCreds assocs = "[]\n") ∧
      (runItems getCred runItem assocs = [] →
        run_sequence getCred runItem assocs = "[]\n") := by
  have h1 : list_associations roles dump assocs =
      "[" ++ commaJoin (listItems roles dump assocs) ++ "]\n" := by
    unfold list_associations
    rw [(listGo_spec roles dump assocs).1, String.append_assoc]
  have h2 : fetch_credentials getCred dumpCreds assocs =
      "[" ++ commaJoin (credItems getCred dumpCreds assocs) ++ "]\n" := by
    unfold fetch_credentials
    rw [(credsGo_spec getCred dumpCreds assocs).1, String.append_assoc]
  have h3 : run_sequence getCred runItem assocs =
      "[" ++ commaJoin (runItems getCred runItem assocs) ++ "]\n" := by
    unfold run_sequence
    rw [(runGo_spec getCred runItem assocs).1, String.append_assoc]
  refine ⟨h1, h2, h3, fun h => ?_, fun h => ?_, fun h => ?_⟩
  · rw [h1, h]
    rfl
  · rw [h2, h]
    rfl
  · rw [h3, h]
    rfl

/-- Claim C6, witness: one association is skipped in each mode (role not
present; credentials forbidden) and the output is the empty array. -/
theorem claim_C6_witness :
    list_associations (fun _ => []) (fun _ => "item") [⟨"N", "1", "r"⟩] =
        "[]\n" ∧
      fetch_credentials (fun _ _ => none) (fun _ _ => "item")
        [⟨"N", "1", "r"⟩] = "[]\n" ∧
      run_sequence (fun _ _ => none) (fun _ _ => "item")
        [⟨"N", "1", "r"⟩] = "[]\n" :=
  ⟨((claim_C6 (fun _ => []) (fun _ => "item") (fun _ _ => none)
      (fun _ _ => "item") (fun _ _ => "item") [⟨"N", "1", "r"⟩]).2.2.2.1)
      (by rfl),
   ((claim_C6 (fun _ => []) (fun _ => "item") (fun _ _ => none)
      (fun _ _ => "item") (fun _ _ => "item") [⟨"N", "1", "r"⟩]).2.2.2.2.1)
      (by rfl),
   ((claim_C6 (fun _ => []) (fun _ => "item") (fun _ _ => none)
      (fun _ _ => "item") (fun _ _ => "item") [⟨"N", "1", "r"⟩]).2.2.2.2.2)
      (by rfl)⟩

/-- Lemma: `fetch_credentials` emits exactly one item per non-forbidden
association. -/
theorem credItems_length (getCred : String → String → Option Credentials)
    (dumpCreds : Association → Credentials → String) :
    ∀ assocs : List Association,
      (credItems getCred dumpCreds assocs).length =
        (assocs.filter fun a => (getCred a.accountId a.role).isSome).length
  | [] => rfl
  | a :: rest => by
    rcases hg : getCred a.accountId a.role with _ | c
    · rw [credItems_cons_none getCred dumpCreds a rest hg, List.filter_cons]
      simp [hg, credItems_length getCred dumpCreds rest]
    · rw [credItems_cons_some getCred dumpCreds a rest c hg,
        List.filter_cons]
      simp [hg, credItems_length getCred dumpCreds rest]

/-- Lemma: `run_sequence` emits exactly one item per non-forbidden association. -/
theorem runItems_length (getCred : String → String → Option Credentials)
    (runItem : Association → Credentials → String) :
    ∀ assocs : List Association,
      (runItems getCred runItem assocs).length =
        (assocs.filter fun a => (getCred a.accountId a.role).isSome).length
  | [] => rfl
  | a :: rest => by
    rcases hg : getCred a.accountId a.role with _ | c
    · rw [runItems_cons_none getCred runItem a rest hg, List.filter_cons]
      simp [hg, runItems_length getCred runItem rest]
    · rw [runItems_cons_some getCred runItem a rest c hg, List.filter_cons]
      simp [hg, runItems_length getCred runItem rest]

/-- Claim C7: in creds and exec modes a forbidden (`none`) credential
request is skipped without aborting the run — the emitted items are the
order-preserving `filterMap` over the whole association list, so later
associations are still processed — and the number of emitted items equals
the number of associations whose credential request was not forbidden. -/
theorem claim_C7 (getCred : String → String → Option Credentials)
    (dumpCreds : Association → Credentials → String)
    (runItem : Association → Credentials → String)
    (assocs : List Association) :
    fetch_credentials getCred dumpCreds assocs =
        "[" ++ commaJoin (credItems getCred dumpCreds assocs) ++ "]\n" ∧
      (credItems getCred dumpCreds assocs).length =
        (assocs.filter fun a => (getCred a.accountId a.role).isSome).length ∧
      run_sequence getCred runItem assocs =
        "[" ++ commaJoin (runItems getCred runItem assocs) ++ "]\n" ∧
      (runItems getCred runItem assocs).length =
        (assocs.filter fun a => (getCred a.accountId a.role).isSome).length := by
  refine ⟨?_, credItems_length getCred dumpCreds assocs, ?_,
    runItems_length getCred runItem assocs⟩
  · unfold fetch_credentials
    rw [(credsGo_spec getCred dumpCreds assocs).1, String.append_assoc]
  · unfold run_sequence
    rw [(runGo_spec getCred runItem assocs).1, String.append_assoc]

/-- The shape of filter-token lists produced by `_parse_filters`: a pair
flag always carries its (arbitrary) value token, and the two single-token
flags stand alone. -/
inductive FilterWF : List String → Prop
  | nil : FilterWF []
  | pair (flag v : String) (rest : List String) :
      flag = "--include-only" ∨ flag = "--exclude" ∨ flag = "--assoc" →
      FilterWF rest → FilterWF (flag :: v :: rest)
  | single (flag : String) (rest : List String) :
      flag = "--assoc-default" ∨ flag = "--reset" →
      FilterWF rest → FilterWF (flag :: rest)

/-- Every filter-token list `_parse_filters` accepts is well-formed. -/
theorem parseFilters_wf : ∀ (l : List String) (c : Nat) (fs : List String),
    parseFilters l = .ok (c, fs) → FilterWF fs
  | [], c, fs, h => by
    simp only [parseFilters] at h
    injection h with h2
    injection h2 with hc hfs
    rw [← hfs]
    exact FilterWF.nil
  | [arg], c, fs, h => by
    simp only [parseFilters] at h
    split at h
    · simp at h
    · split at h
      · simp at h
      · split at h
        · simp at h
        · split at h
          · rename_i harg
            injection h with h2
            injection h2 with hc hfs
            rw [← hfs]
            exact FilterWF.single arg [] (Or.inl (by simpa using harg))
              FilterWF.nil
          · split at h
            · rename_i harg
              injection h with h2
              injection h2 with hc hfs
              rw [← hfs]
              exact FilterWF.single arg [] (Or.inr (by simpa using harg))
                FilterWF.nil
            · injection h with h2
              injection h2 with hc hfs
              rw [← hfs]
              exact FilterWF.nil
  | arg :: v :: rest, c, fs, h => by
    simp only [parseFilters] at h
    split at h
    · rename_i harg
      split at h
      · simp at h
      · rename_i c2 fs2 heq
        injection h with h2
        injection h2 with hc hfs
        rw [← hfs]
        exact FilterWF.pair arg v fs2 (Or.inl (by simpa using harg))
          (parseFilters_wf rest c2 fs2 heq)
    · split at h
      · rename_i harg
        split at h
        · simp at h
        · rename_i c2 fs2 heq
          injection h with h2
          injection h2 with hc hfs
          rw [← hfs]
          exact FilterWF.pair arg v fs2 (Or.inr (Or.inl (by simpa using harg)))
            (parseFilters_wf rest c2 fs2 heq)
      · split at h
        · rename_i harg
          split at h
          · simp at h
          · rename_i c2 fs2 heq
            injection h with h2
            injection h2 with hc hfs
            rw [← hfs]
            exact FilterWF.pair arg v fs2
              (Or.inr (Or.inr (by simpa using harg)))
              (parseFilters_wf rest c2 fs2 heq)
        · split at h
          · rename_i harg
            split at h
            · simp at h
            · rename_i c2 fs2 heq
              injection h with h2
              injection h2 with hc hfs
              rw [← hfs]
              exact FilterWF.single arg fs2 (Or.inl (by simpa using harg))
                (parseFilters_wf (v :: rest) c2 fs2 heq)
          · split at h
            · rename_i harg
              split at h
              · simp at h
              · rename_i c2 fs2 heq
                injection h with h2
                injection h2 with hc hfs
                rw [← hfs]
                exact FilterWF.single arg fs2 (Or.inr (by simpa using harg))
                  (parseFilters_wf (v :: rest) c2 fs2 heq)
            · injection h with h2
              injection h2 with hc hfs
              rw [← hfs]
              exact FilterWF.nil

/-- Lemma: the loop of `filter_accounts` succeeds on every well-formed token list: the
defensive error branches are unreachable. -/
theorem filterGo_wf_ok (search : String → String → Bool)
    (accounts : List Account) (R : String) :
    ∀ {fs : List String}, FilterWF fs →
      ∀ (buf : List Account) (res : List Association),
        ∃ out, filterGo search accounts R fs buf res = .ok out := by
  intro fs hwf
  induction hwf with
  | nil =>
    intro buf res
    exact ⟨_, rfl⟩
  | pair flag v rest hflag hrest ih =>
    intro buf res
    rcases hflag with hf | hf | hf <;> subst hf
    · exact ih _ _
    · exact ih _ _
    · exact ih _ _
  | single flag rest hflag hrest ih =>
    intro buf res
    rcases hflag with hf | hf <;> subst hf <;>
      cases rest with
      | nil => exact ih _ _
      | cons t ts => exact ih _ _

/-- Claim C8: for every token sequence `parse_arguments` accepts, the
filter pipeline never reaches its defensive error branches — running
`filter_accounts` on the returned filter-token list always succeeds
(raises neither `UnexpectedFilterArgument` nor `MissingFilterParameter`). -/
theorem claim_C8 (argv : List String) (search : String → String → Bool)
    (accounts : List Account) (R : String) (r : ParseResult)
    (hr : parse_arguments argv = .ok r) :
    ∃ out, filter_accounts search r.filters accounts R = .ok out := by
  have hwf : FilterWF r.filters := by
    by_cases h : parseHelp (argv.drop 1) = true
    · rw [(parse_ok_help argv).mpr h] at hr
      injection hr with h2
      rw [← h2]
      exact FilterWF.nil
    · rcases hpp : parseProfile (argv.drop 1) with e | ⟨c1, profile⟩
      · simp only [parse_arguments, if_neg h, hpp] at hr
        exact absurd hr (by simp)
      · rcases hpf : parseFilters ((argv.drop 1).drop c1) with e | ⟨c2, fs⟩
        · simp only [parse_arguments, if_neg h, hpp, hpf] at hr
          exact absurd hr (by simp)
        · rcases hdd : (((argv.drop 1).drop c1).drop c2).drop
              (parseCommands (((argv.drop 1).drop c1).drop c2)).1 with
            _ | ⟨tok2, rest2⟩
          · simp only [parse_arguments, if_neg h, hpp, hpf, hdd] at hr
            injection hr with h2
            rw [← h2]
            exact parseFilters_wf _ _ _ hpf
          · simp only [parse_arguments, if_neg h, hpp, hpf, hdd] at hr
            exact absurd hr (by simp)
  unfold filter_accounts
  exact filterGo_wf_ok search accounts R hwf accounts []

/-- Claim C8, witness: a parsed filter segment runs through the pipeline
without error. -/
theorem claim_C8_witness :
    ∃ out, filter_accounts (fun _ _ => true)
      (ParseResult.mk false none ["--include-only", "x", "--reset"]
        ["list"]).filters [⟨"1", "A", none⟩] "R" = .ok out :=
  claim_C8 ["prog", "--include-only", "x", "--reset", "list"]
    (fun _ _ => true) [⟨"1", "A", none⟩] "R"
    (ParseResult.mk false none ["--include-only", "x", "--reset"] ["list"])
    (by rfl)

/-- Ghost trace of the filter pipeline: the buffer contents after each
step of the loop of `filter_accounts`, mirroring the token dispatch of `filterGo`
exactly (error cases produce no further steps). -/
def filterBuffers (search : String → String → Bool)
    (accounts : List Account) :
    List String → List Account → List (List Account)
  | [], _ => []
  | arg :: rest, buf =>
    if arg == "--include-only" then
      match rest with
      | [] => []
      | v :: rest2 =>
        bufIncludeOnly search buf v ::
          filterBuffers search accounts rest2 (bufIncludeOnly search buf v)
    else if arg == "--exclude" then
      match rest with
      | [] => []
      | v :: rest2 =>
        bufExclude search buf v ::
          filterBuffers search accounts rest2 (bufExclude search buf v)
    else if arg == "--assoc" then
      match rest with
      | [] => []
      | _ :: rest2 => [] :: filterBuffers search accounts rest2 []
    else if arg == "--assoc-default" then
      [] :: filterBuffers search accounts rest []
    else if arg == "--reset" then
      accounts :: filterBuffers search accounts rest accounts
    else []

/-- Every buffer reached from a buffer that is an order-preserving subset
(sublist) of the original account list is itself such a sublist. -/
theorem filterBuffers_sublist (search : String → String → Bool)
    (accounts : List Account) :
    ∀ (toks : List String) (buf : List Account), buf.Sublist accounts →
      ∀ b ∈ filterBuffers search accounts toks buf, b.Sublist accounts
  | [], buf, hbuf, b, hb => by simp [filterBuffers] at hb
  | [arg], buf, hbuf, b, hb => by
    simp only [filterBuffers] at hb
    split at hb
    · simp at hb
    · split at hb
      · simp at hb
      · split at hb
        · simp at hb
        · split at hb
          · rcases List.mem_cons.mp hb with rfl | hb2
            · exact List.nil_sublist accounts
            · simp [filterBuffers] at hb2
          · split at hb
            · rcases List.mem_cons.mp hb with rfl | hb2
              · exact List.Sublist.refl _
              · simp [filterBuffers] at hb2
            · simp at hb
  | arg :: v :: rest, buf, hbuf, b, hb => by
    simp only [filterBuffers] at hb
    split at hb
    · rcases List.mem_cons.mp hb with rfl | hb2
      · exact ((List.filter_sublist buf).trans hbuf)
      · exact filterBuffers_sublist search accounts rest _
          ((List.filter_sublist buf).trans hbuf) b hb2
    · split at hb
      · rcases List.mem_cons.mp hb with rfl | hb2
        · exact ((List.filter_sublist buf).trans hbuf)
        · exact filterBuffers_sublist search accounts rest _
            ((List.filter_sublist buf).trans hbuf) b hb2
      · split at hb
        · rcases List.mem_cons.mp hb with rfl | hb2
          · exact List.nil_sublist accounts
          · exact filterBuffers_sublist search accounts rest []
              (List.nil_sublist accounts) b hb2
        · split at hb
          · rcases List.mem_cons.mp hb with rfl | hb2
            · exact List.nil_sublist accounts
            · exact filterBuffers_sublist search accounts (v :: rest) []
                (List.nil_sublist accounts) b hb2
          · split at hb
            · rcases List.mem_cons.mp hb with rfl | hb2
              · exact List.Sublist.refl _
              · exact filterBuffers_sublist search accounts (v :: rest)
                  accounts (List.Sublist.refl accounts) b hb2
            · simp at hb

/-- Claim C9: throughout the interpretation of any filter-token sequence,
every buffer reached is an order-preserving subset (sublist) of the
original account list — `IncludeOnly`/`Exclude` only remove elements from
the current buffer without reordering, `Reset` restores the full original
list, and `Assoc`/`AssocDefault` leave an empty buffer. -/
theorem claim_C9 (search : String → String → Bool)
    (accounts : List Account) :
    (∀ (buf : List Account) (p : String),
      (bufIncludeOnly search buf p).Sublist buf ∧
        (bufExclude search buf p).Sublist buf) ∧
      (∀ (v : String) (rest : List String) (buf : List Account),
        filterBuffers search accounts ("--reset" :: rest) buf =
            accounts :: filterBuffers search accounts rest accounts ∧
          filterBuffers search accounts ("--assoc" :: v :: rest) buf =
            [] :: filterBuffers search accounts rest [] ∧
          filterBuffers search accounts ("--assoc-default" :: rest) buf =
            [] :: filterBuffers search accounts rest []) ∧
      (∀ (toks : List String) (buf : List Account), buf.Sublist accounts →
        ∀ b ∈ filterBuffers search accounts toks buf, b.Sublist accounts) := by
  refine ⟨fun buf p => ⟨List.filter_sublist buf, List.filter_sublist buf⟩,
    fun v rest buf => ⟨?_, rfl, ?_⟩, filterBuffers_sublist search accounts⟩
  · cases rest with
    | nil => rfl
    | cons t ts => rfl
  · cases rest with
    | nil => rfl
    | cons t ts => rfl

/-- Claim C9, witness: after a `--reset` from an empty buffer the traced
buffer is the full account list, a sublist of itself. -/
theorem claim_C9_witness :
    ([⟨"1", "A", none⟩] : List Account).Sublist [⟨"1", "A", none⟩] :=
  (claim_C9 (fun _ _ => true) [⟨"1", "A", none⟩]).2.2 ["--reset"] []
    (List.nil_sublist _) [⟨"1", "A", none⟩] (by simp [filterBuffers])

/-- A known last element of a suffix obtained by `drop` is the last
element of the whole list. -/
theorem getLast?_of_drop {α : Type} :
    ∀ (n : Nat) (l : List α) {x : α},
      (l.drop n).getLast? = some x → l.getLast? = some x
  | 0, l, x, h => h
  | n + 1, [], x, h => by simp at h
  | n + 1, a :: as, x, h =>
    getLast?_cons_of_getLast? (getLast?_of_drop n as h)

/-- Claim C10: a pair flag followed by at least one token unconditionally
consumes the very next token as its value — even when that token is itself
a recognized flag, as in `["--include-only","--reset"]` where `--reset`
becomes the pattern value (and downstream the pipeline filters with the
pattern `--reset` instead of resetting) — and `MissingArgumentParameter`
is raised only when the pair flag is the last token of the stripped
sequence. -/
theorem claim_C10 :
    (∀ (argv : List String) (f : String),
      parse_arguments argv = .error (.missingArgumentParameter f) →
        (argv.drop 1).getLast? = some f ∧
          (f = "--profile" ∨ f = "--include-only" ∨ f = "--exclude" ∨
            f = "--assoc")) ∧
    (∀ (v : String) (rest : List String) (c : Nat) (fs : List String),
      parseFilters rest = .ok (c, fs) →
        parseFilters ("--include-only" :: v :: rest) =
            .ok (c + 2, "--include-only" :: v :: fs) ∧
          parseFilters ("--exclude" :: v :: rest) =
            .ok (c + 2, "--exclude" :: v :: fs) ∧
          parseFilters ("--assoc" :: v :: rest) =
            .ok (c + 2, "--assoc" :: v :: fs)) ∧
    (∀ (v : String) (rest : List String),
      parseProfile ("--profile" :: v :: rest) = .ok (2, some v)) ∧
    parse_arguments ["prog", "--include-only", "--reset"] =
      .ok ⟨false, none, ["--include-only", "--reset"], []⟩ ∧
    (∀ (search : String → String → Bool) (accounts : List Account)
      (R : String),
      filter_accounts search ["--include-only", "--reset"] accounts R =
        .ok (resultAssociate (bufIncludeOnly search accounts "--reset") R)) := by
  refine ⟨?_, ?_, fun v rest => rfl, rfl, fun search accounts R => rfl⟩
  · intro argv f hc
    by_cases h : parseHelp (argv.drop 1) = true
    · rw [(parse_ok_help argv).mpr h] at hc
      exact absurd hc (by simp)
    · rcases hpp : parseProfile (argv.drop 1) with e | ⟨c1, profile⟩
      · simp only [parse_arguments, if_neg h, hpp] at hc
        obtain ⟨he, hlast⟩ := parseProfile_error _ _ hpp
        injection hc with h2
        rw [h2] at he
        injection he with hf
        subst hf
        exact ⟨hlast, Or.inl rfl⟩
      · rcases hpf : parseFilters ((argv.drop 1).drop c1) with e | ⟨c2, fs⟩
        · simp only [parse_arguments, if_neg h, hpp, hpf] at hc
          obtain ⟨f2, he, hlast, hflag⟩ := parseFilters_error _ _ hpf
          injection hc with h2
          rw [h2] at he
          injection he with hf
          subst hf
          exact ⟨getLast?_of_drop c1 (argv.drop 1) hlast, Or.inr hflag⟩
        · rcases hdd : (((argv.drop 1).drop c1).drop c2).drop
              (parseCommands (((argv.drop 1).drop c1).drop c2)).1 with
            _ | ⟨tok2, rest2⟩
          · simp only [parse_arguments, if_neg h, hpp, hpf, hdd] at hc
            exact absurd hc (by simp)
          · simp only [parse_arguments, if_neg h, hpp, hpf, hdd] at hc
            injection hc with h2
            simp at h2
  · intro v rest c fs hok
    have h1 : parseFilters ("--include-only" :: v :: rest) =
        match parseFilters rest with
        | .error e => .error e
        | .ok (c, fs) => .ok (c + 2, "--include-only" :: v :: fs) := rfl
    have h2 : parseFilters ("--exclude" :: v :: rest) =
        match parseFilters rest with
        | .error e => .error e
        | .ok (c, fs) => .ok (c + 2, "--exclude" :: v :: fs) := rfl
    have h3 : parseFilters ("--assoc" :: v :: rest) =
        match parseFilters rest with
        | .error e => .error e
        | .ok (c, fs) => .ok (c + 2, "--assoc" :: v :: fs) := rfl
    rw [h1, h2, h3, hok]
    exact ⟨rfl, rfl, rfl⟩

/-- Claim C10, witness: `["prog","--profile"]` is rejected with the flag
reported, which is indeed the last stripped token and a pair flag. -/
theorem claim_C10_witness :
    (["prog", "--profile"].drop 1).getLast? = some "--profile" ∧
      ("--profile" = "--profile" ∨ "--profile" = "--include-only" ∨
        "--profile" = "--exclude" ∨ "--profile" = "--assoc") :=
  claim_C10.1 ["prog", "--profile"] "--profile" (by rfl)

end Ssorepeat
